import Mathlib

/-!
Shallow embedding of the discrete probability distribution core of
`probability_and_statistics/DiscreteDistributionClasses.py`:
the class `_DiscreteProbabilityDistribution` and its concrete subclasses
`Bernoulli`, `Binomial`, `Geometric`, `Poisson`, `Uniform`.

Modelling conventions.

* Python `Decimal` values are modelled as exact rationals `ℚ`.  The source sets
  the `Decimal` context to 10 significant figures; the rational model computes
  the same expressions exactly, so every "equals within numeric tolerance"
  statement is established as an exact equality of the ideal values.
* Queried values are integers `ℤ`; queried quantiles are rationals `ℚ`
  (the source passes `Decimal`/`float` quantiles).
* A raised Python exception is modelled by `Except PyErr`; a method that raises
  returns `.error e` and produces no rows (as in the source, where the raise
  aborts the method before the result frame is built).
* `X_range` entries are dynamically typed in the source: `int` for
  `Bernoulli`/`Binomial`/`Geometric`/`Poisson`, `Decimal` for `Uniform`, and
  `np.inf` for the right-unbounded supports.  `PyNum` keeps this distinction,
  because `cdf`'s `type(x) == int` test and `list(x)` make it observable.
* The unbounded `while` loop of `_inverse_cdf_helper` is modelled with an
  explicit fuel parameter; running out of fuel yields the artificial error
  `.fuelExhausted` (the source would still be looping at that point).
* `scipy.special.comb(n, x)` is modelled as the exact binomial coefficient
  (it is `C(n, x)` for `0 ≤ x ≤ n` and `0` otherwise); `np.exp(-l)` in the
  `Poisson` pmf is a float approximation of `exp (-l)`, modelled as an extra
  rational parameter `e` of the constructor.
-/

namespace DDC

/-- A numeric value as stored in `X_range`: an `int`, a `Decimal` (`Uniform`
stores `Decimal` bounds), or `np.inf` (upper bound of `Geometric`/`Poisson`). -/
inductive PyNum where
  | int (i : ℤ)
  | dec (q : ℚ)
  | inf
deriving DecidableEq

/-- The exceptions the modelled methods can raise. -/
inductive PyErr where
  | typeError (val : ℚ)
  -- TypeError("{} is out of range {}") from `_check_value_is_in_range`, and
  -- from the quantile validation in `inverse_cdf`; carries the offending value
  | iterTypeError
  -- TypeError raised by `list(x)` when `x` is not iterable (a Decimal bound)
  | indexError
  -- IndexError from `.iloc[0, 1]` on an empty frame
  | valueError
  -- ValueError from `max(())` on an empty query list
  | nameError
  -- NameError from `eval` of a formula that names an unbound identifier
  | otherError
  -- failures on paths no concrete variant reaches (e.g. `range()` with a
  -- non-int start in the summation branch of `cdf`)
  | fuelExhausted
  -- modelling artefact: the fuel of the while-loop model ran out
deriving DecidableEq

/-- The state of a `_DiscreteProbabilityDistribution` instance after the
subclass `__init__` ran: the formula strings are modelled by the functions
`eval` computes from them, `parameters` is absorbed into those functions,
and `X_range = [lo, hi]`.  `meanEval`/`varianceEval` are the outcomes of
`eval(self.mean_formula)` / `eval(self.variance_formula)`. -/
structure Dist where
  pmfFun : ℤ → ℚ
  cdfFormula : Option (ℤ → ℚ)
  meanEval : Except PyErr ℚ
  varianceEval : Except PyErr ℚ
  lo : PyNum
  hi : PyNum
  name : String

/-- `_check_value_is_in_range`: the test `X_range[0] <= x and x <= X_range[1]`
(the method raises `TypeError` when this is `false`; callers below map the
`false` case to `.typeError`).  Comparisons of `int`/`Decimal`/`np.inf`
against the queried `int` follow Python's numeric comparison. -/
def check_value_is_in_range (d : Dist) (x : ℤ) : Bool :=
  (match d.lo with
   | .int i => decide (i ≤ x)
   | .dec q => decide (q ≤ (x : ℚ))
   | .inf => false) &&
  (match d.hi with
   | .int i => decide (x ≤ i)
   | .dec q => decide ((x : ℚ) ≤ q)
   | .inf => true)

/-- The loop body of `pmf` over the (already coerced) list of query values:
for each `x` in order, validate the range, then evaluate the pmf formula;
a failed validation raises and no frame is returned. -/
def pmfList (d : Dist) : List ℤ → Except PyErr (List (ℤ × ℚ))
  | [] => .ok []
  | x :: xs =>
    if check_value_is_in_range d x then
      match pmfList d xs with
      | .ok rest => .ok ((x, d.pmfFun x) :: rest)
      | .error e => .error e
    else .error (.typeError (x : ℚ))

/-- Python's `max` over a list (raises `ValueError`, modelled as `none`,
on an empty list). -/
def pyMax : List ℤ → Option ℤ
  | [] => none
  | x :: xs => some (xs.foldl max x)

/-- `list(range(lo, lo + k))`: the `k` consecutive integers starting at `lo`. -/
def intRange (lo : ℤ) : ℕ → List ℤ
  | 0 => []
  | k + 1 => lo :: intRange (lo + 1) k

/-- `DataFrame.cumsum` over the `p(x)` column of an `(x, p(x))` table. -/
def cumsumAux (acc : ℚ) : List (ℤ × ℚ) → List (ℤ × ℚ)
  | [] => []
  | (x, p) :: rest => (x, acc + p) :: cumsumAux (acc + p) rest

/-- The per-value loop of `cdf` when a closed-form `cdf_formula` is present:
validate each `x`, then evaluate the formula. -/
def cdfClosedLoop (d : Dist) (F : ℤ → ℚ) : List ℤ → Except PyErr (List (ℤ × ℚ))
  | [] => .ok []
  | x :: xs =>
    if check_value_is_in_range d x then
      match cdfClosedLoop d F xs with
      | .ok rest => .ok ((x, F x) :: rest)
      | .error e => .error e
    else .error (.typeError (x : ℚ))

/-- The body of `cdf` over the (already coerced) query list `y`.
Without a closed-form `cdf_formula` it sums the pmf over
`range(X_range[0], max(y) + 1)`, takes the cumulative sum, and keeps the rows
whose `x` is in `y` (`cdf[cdf['x'].isin(y)]`); `range` needs an `int` start.
With a closed form, it validates and evaluates per value. -/
def cdfList (d : Dist) (y : List ℤ) : Except PyErr (List (ℤ × ℚ)) :=
  match d.cdfFormula with
  | none =>
    match d.lo with
    | .int start =>
      match pyMax y with
      | none => .error .valueError
      | some m =>
        match pmfList d (intRange start (m + 1 - start).toNat) with
        | .error e => .error e
        | .ok table => .ok ((cumsumAux 0 table).filter fun r => y.contains r.1)
    | _ => .error .otherError
  | some F => cdfClosedLoop d F y

/-- `.iloc[0, 1]` on a two-column frame: the value of the first row
(raises `IndexError` on an empty frame). -/
def iloc01 : List (ℤ × ℚ) → Except PyErr ℚ
  | [] => .error .indexError
  | r :: _ => .ok r.2

/-- `self.cdf(x).iloc[0, 1]` for an `int` argument `x` (which `cdf` wraps
into the singleton list `[x]`). -/
def cdfVal (d : Dist) (x : ℤ) : Except PyErr ℚ :=
  match cdfList d [x] with
  | .error e => .error e
  | .ok rows => iloc01 rows

/-- `self.pmf(x).iloc[0, 1]` for an `int` argument `x`. -/
def pmfVal (d : Dist) (x : ℤ) : Except PyErr ℚ :=
  match pmfList d [x] with
  | .error e => .error e
  | .ok rows => iloc01 rows

/-- The `while candidate < a` loop of `_inverse_cdf_helper`: advance `x` by
one and add `pmf(x)` to the running cumulative probability until it reaches
`a`.  `fuel` bounds the number of iterations of the model. -/
def icdfLoop (d : Dist) (a : ℚ) : ℕ → ℤ → ℚ → Except PyErr ℤ
  | 0, x, cand => if cand < a then .error .fuelExhausted else .ok x
  | fuel + 1, x, cand =>
    if cand < a then
      match pmfVal d (x + 1) with
      | .error e => .error e
      | .ok p => icdfLoop d a fuel (x + 1) (cand + p)
    else .ok x

/-- `_inverse_cdf_helper(x_start, a)`.  The first statement is
`candidate = self.cdf(x_start).iloc[0, 1]`; inside `cdf`, `type(x) == int`
fails for a non-`int` `x_start` (`Uniform` stores `Decimal` bounds) and
`list(x)` then raises `TypeError: object is not iterable`. -/
def inverse_cdf_helper (d : Dist) (fuel : ℕ) (x_start : PyNum) (a : ℚ) :
    Except PyErr ℤ :=
  match x_start with
  | .int s =>
    match cdfVal d s with
    | .error e => .error e
    | .ok c => icdfLoop d a fuel s c
  | _ => .error .iterTypeError

/-- The quantile loop of `inverse_cdf` over the sorted quantiles, threading
the running cursor `x_start` (initially `X_range[0]`, afterwards the previous
answer, an `int`): validate `0 < a < 1`, then search from the cursor. -/
def icdfScan (d : Dist) (fuel : ℕ) : PyNum → List ℚ → Except PyErr (List ℤ)
  | _, [] => .ok []
  | s, a :: rest =>
    if 0 < a ∧ a < 1 then
      match inverse_cdf_helper d fuel s a with
      | .error e => .error e
      | .ok x =>
        match icdfScan d fuel (.int x) rest with
        | .error e => .error e
        | .ok qs => .ok (x :: qs)
    else .error (.typeError a)

/-- The body of `inverse_cdf` over the (already coerced) quantile list:
sort ascending, run the cursor-reusing scan from `X_range[0]`, and pair each
sorted quantile with its answer (the `{'a': y, 'qa': results}` frame). -/
def inverse_cdfList (d : Dist) (fuel : ℕ) (a : List ℚ) :
    Except PyErr (List (ℚ × ℤ)) :=
  let y := List.insertionSort (· ≤ ·) a
  match icdfScan d fuel d.lo y with
  | .error e => .error e
  | .ok qs => .ok (y.zip qs)

/-- The argument of `pmf`/`cdf`: a single `int` or a list
(`if type(x) == int: y = [x] else: y = list(x)`). -/
inductive IntArg where
  | int (x : ℤ)
  | list (xs : List ℤ)

/-- The argument of `inverse_cdf`: a single number
(`isinstance(a, numbers.Number)`) or a list. -/
inductive QArg where
  | num (a : ℚ)
  | list (as : List ℚ)

/-- The public `pmf` method: singleton coercion, then the loop.  The method
assigns no instance attribute, so the post-state equals the receiver; the
returned pair is (result, self after the call). -/
def pmfMethod (d : Dist) (x : IntArg) : Except PyErr (List (ℤ × ℚ)) × Dist :=
  ((match x with
    | .int v => pmfList d [v]
    | .list xs => pmfList d xs), d)

/-- The public `cdf` method (no instance attribute is assigned). -/
def cdfMethod (d : Dist) (x : IntArg) : Except PyErr (List (ℤ × ℚ)) × Dist :=
  ((match x with
    | .int v => cdfList d [v]
    | .list xs => cdfList d xs), d)

/-- The public `inverse_cdf` method (the reassigned `x_start` is a local
variable, not an instance attribute). -/
def inverse_cdfMethod (d : Dist) (fuel : ℕ) (a : QArg) :
    Except PyErr (List (ℚ × ℤ)) × Dist :=
  ((match a with
    | .num v => inverse_cdfList d fuel [v]
    | .list as => inverse_cdfList d fuel as), d)

/-- The public `mean` method: `eval(self.mean_formula)`. -/
def meanMethod (d : Dist) : Except PyErr ℚ × Dist := (d.meanEval, d)

/-- The public `variance` method: `eval(self.variance_formula)`. -/
def varianceMethod (d : Dist) : Except PyErr ℚ × Dist := (d.varianceEval, d)

/-- `Decimal(comb(n, x))`: the binomial coefficient, `0` outside `0 ≤ x ≤ n`
(scipy's `comb` returns `0.0` there). -/
def combQ (n : ℕ) (x : ℤ) : ℚ :=
  if 0 ≤ x then (n.choose x.toNat : ℚ) else 0

/-- `Bernoulli(p)`.  `pmf_formula` is `p**x * (1-p)**(1-x)`, `X_range = [0, 1]`.
`mean_formula` is the string `"1 * parameters['p']"`: the bare name
`parameters` is bound neither in the locals of `mean` (only `self` is) nor in
the module globals, so `eval` raises `NameError`; `variance_formula` correctly
uses `self.parameters`. -/
def Bernoulli (p : ℚ) : Dist where
  pmfFun := fun x => p ^ x * (1 - p) ^ (1 - x)
  cdfFormula := none
  meanEval := .error .nameError
  varianceEval := .ok (p * (1 - p))
  lo := .int 0
  hi := .int 1
  name := "X ~ Bernoulli(" ++ toString p ++ ")"

/-- `Binomial(n, p)`: pmf `comb(n, x) * p**x * (1-p)**(n-x)`,
`X_range = [0, n]`. -/
def Binomial (n : ℕ) (p : ℚ) : Dist where
  pmfFun := fun x => combQ n x * p ^ x * (1 - p) ^ ((n : ℤ) - x)
  cdfFormula := none
  meanEval := .ok (n * p)
  varianceEval := .ok (n * p * (1 - p))
  lo := .int 0
  hi := .int n
  name := "X ~ B(" ++ toString n ++ "," ++ toString p ++ ")"

/-- `Geometric(p)`: pmf `(1-p)**(x-1) * p`, closed-form cdf `1-(1-p)**x`,
`X_range = [1, np.inf]`. -/
def Geometric (p : ℚ) : Dist where
  pmfFun := fun x => (1 - p) ^ (x - 1) * p
  cdfFormula := some fun x => 1 - (1 - p) ^ x
  meanEval := .ok (1 / p)
  varianceEval := .ok ((1 - p) / p ^ (2 : ℕ))
  lo := .int 1
  hi := .inf
  name := "X ~ G(" ++ toString p ++ ")"

/-- `Poisson(l)`: pmf `(l**x / Decimal(factorial(x))) * Decimal(np.exp(-l))`,
`X_range = [0, np.inf]`.  The parameter `e` is the rational value of the float
`np.exp(-l)` (`factorial` is only ever evaluated at validated `x ≥ 0`). -/
def Poisson (l e : ℚ) : Dist where
  pmfFun := fun x => l ^ x / (Nat.factorial x.toNat : ℚ) * e
  cdfFormula := none
  meanEval := .ok (1 * l)
  varianceEval := .ok (1 * l)
  lo := .int 0
  hi := .inf
  name := "X ~ Poisson(" ++ toString l ++ ")"

/-- `Uniform(m, n)`: pmf `1/(n-m+1)`, closed-form cdf `(x-m+1)/(n-m+1)`,
and `X_range = [Decimal(m), Decimal(n)]` — the bounds are stored as
`Decimal` parameters, not ints. -/
def Uniform (m n : ℤ) : Dist where
  pmfFun := fun _ => 1 / ((n : ℚ) - (m : ℚ) + 1)
  cdfFormula := some fun x => ((x : ℚ) - (m : ℚ) + 1) / ((n : ℚ) - (m : ℚ) + 1)
  meanEval := .ok (((n : ℚ) + (m : ℚ)) / 2)
  varianceEval := .ok ((1 / 12) * ((n : ℚ) - (m : ℚ)) * ((n : ℚ) - (m : ℚ) + 2))
  lo := .dec (m : ℚ)
  hi := .dec (n : ℚ)
  name := "X ~ Uniform(" ++ toString m ++ ", " ++ toString n ++ ")"

/-- The mathematical cumulative mass of a distribution: the sum of `pmfFun`
over the integers `lo0, lo0 + 1, ..., x` (empty when `x < lo0`).  This is the
reference value the summation strategy of `cdf` computes. -/
def sumFrom (d : Dist) (lo0 x : ℤ) : ℚ :=
  ((intRange lo0 (x + 1 - lo0).toNat).map d.pmfFun).sum

/-! Basic facts about `intRange` and the query loops. -/

lemma mem_intRange : ∀ (k : ℕ) (lo t : ℤ), t ∈ intRange lo k ↔ lo ≤ t ∧ t < lo + k := by
  intro k
  induction k with
  | zero => intro lo t; simp [intRange]
  | succ k ih =>
    intro lo t
    simp only [intRange, List.mem_cons, ih (lo + 1) t]
    omega

lemma intRange_succ_right : ∀ (k : ℕ) (lo : ℤ),
    intRange lo (k + 1) = intRange lo k ++ [lo + k] := by
  intro k
  induction k with
  | zero => intro lo; simp [intRange]
  | succ k ih =>
    intro lo
    show lo :: intRange (lo + 1) (k + 1) = (lo :: intRange (lo + 1) k) ++ [lo + (k + 1 : ℕ)]
    rw [ih (lo + 1)]
    have harr : lo + 1 + (k : ℤ) = lo + ((k + 1 : ℕ) : ℤ) := by push_cast; ring
    rw [List.cons_append, harr]

lemma pmfList_ok (d : Dist) : ∀ l : List ℤ,
    (∀ t ∈ l, check_value_is_in_range d t = true) →
    pmfList d l = .ok (l.map fun t => (t, d.pmfFun t)) := by
  intro l
  induction l with
  | nil => intro _; rfl
  | cons x xs ih =>
    intro h
    have hx := h x (List.mem_cons_self x xs)
    have hxs := ih fun t ht => h t (List.mem_cons_of_mem x ht)
    simp only [pmfList, hx, if_true, hxs, List.map_cons]

lemma check_lo_le (d : Dist) (lo0 x : ℤ) (hlo : d.lo = .int lo0)
    (hx : check_value_is_in_range d x = true) : lo0 ≤ x := by
  unfold check_value_is_in_range at hx
  rw [hlo] at hx
  simp only [Bool.and_eq_true, decide_eq_true_eq] at hx
  exact hx.1

lemma check_mono_down (d : Dist) (lo0 y t : ℤ) (hlo : d.lo = .int lo0)
    (hy : check_value_is_in_range d y = true) (h1 : lo0 ≤ t) (h2 : t ≤ y) :
    check_value_is_in_range d t = true := by
  unfold check_value_is_in_range at hy ⊢
  rw [hlo] at hy ⊢
  simp only [Bool.and_eq_true, decide_eq_true_eq] at hy ⊢
  refine ⟨h1, ?_⟩
  cases hhi : d.hi with
  | int i =>
    rw [hhi] at hy
    simp only [decide_eq_true_eq] at hy ⊢
    omega
  | dec q =>
    rw [hhi] at hy
    simp only [decide_eq_true_eq] at hy ⊢
    have ht : (t : ℚ) ≤ (y : ℚ) := by exact_mod_cast h2
    linarith [hy.2]
  | inf => rfl

lemma cumsum_filter_last : ∀ (k : ℕ) (lo : ℤ) (acc : ℚ) (f : ℤ → ℚ),
    (cumsumAux acc ((intRange lo (k + 1)).map fun t => (t, f t))).filter
      (fun r => ([lo + (k : ℤ)] : List ℤ).contains r.1) =
    [(lo + (k : ℤ), acc + ((intRange lo (k + 1)).map f).sum)] := by
  intro k
  induction k with
  | zero =>
    intro lo acc f
    simp [intRange, cumsumAux, List.filter, List.contains]
  | succ k ih =>
    intro lo acc f
    have hstep : (intRange lo (k + 1 + 1)).map (fun t => (t, f t)) =
        (lo, f lo) :: ((intRange (lo + 1) (k + 1)).map fun t => (t, f t)) := rfl
    rw [hstep]
    have hcum : cumsumAux acc ((lo, f lo) ::
          ((intRange (lo + 1) (k + 1)).map fun t => (t, f t))) =
        (lo, acc + f lo) ::
          cumsumAux (acc + f lo) ((intRange (lo + 1) (k + 1)).map fun t => (t, f t)) := rfl
    rw [hcum, List.filter_cons]
    have hne : (([lo + ((k + 1 : ℕ) : ℤ)] : List ℤ).contains lo) = false := by
      simp only [List.contains_cons, List.contains_nil, Bool.or_false, beq_eq_false_iff_ne,
        ne_eq]
      push_cast
      omega
    rw [hne, if_neg Bool.false_ne_true]
    have harr : lo + ((k + 1 : ℕ) : ℤ) = (lo + 1) + (k : ℤ) := by push_cast; ring
    rw [harr, ih (lo + 1) (acc + f lo) f]
    rw [show (intRange lo (k + 1 + 1)).map f = f lo :: (intRange (lo + 1) (k + 1)).map f
      from rfl]
    rw [List.sum_cons, add_assoc acc (f lo)]

lemma cdfList_single_sum (d : Dist) (lo0 x : ℤ) (hform : d.cdfFormula = none)
    (hlo : d.lo = .int lo0) (hx : check_value_is_in_range d x = true) :
    cdfList d [x] = .ok [(x, sumFrom d lo0 x)] := by
  have hx0 : lo0 ≤ x := check_lo_le d lo0 x hlo hx
  have hk : (x + 1 - lo0).toNat = (x - lo0).toNat + 1 := by omega
  have hinr : ∀ t ∈ intRange lo0 ((x - lo0).toNat + 1),
      check_value_is_in_range d t = true := by
    intro t ht
    rw [mem_intRange] at ht
    refine check_mono_down d lo0 x t hlo hx ht.1 ?_
    omega
  have hrows := pmfList_ok d (intRange lo0 ((x - lo0).toNat + 1)) hinr
  simp only [cdfList, hform, hlo, pyMax, List.foldl, hk, hrows]
  have hxk : lo0 + ((x - lo0).toNat : ℤ) = x := by omega
  have hlast := cumsum_filter_last (x - lo0).toNat lo0 0 d.pmfFun
  rw [hxk] at hlast
  rw [hlast, zero_add]
  unfold sumFrom
  rw [hk]

lemma cdfVal_sum (d : Dist) (lo0 x : ℤ) (hform : d.cdfFormula = none)
    (hlo : d.lo = .int lo0) (hx : check_value_is_in_range d x = true) :
    cdfVal d x = .ok (sumFrom d lo0 x) := by
  unfold cdfVal
  rw [cdfList_single_sum d lo0 x hform hlo hx]
  rfl

lemma cdfList_single_closed (d : Dist) (F : ℤ → ℚ) (x : ℤ)
    (hform : d.cdfFormula = some F) (hx : check_value_is_in_range d x = true) :
    cdfList d [x] = .ok [(x, F x)] := by
  unfold cdfList
  rw [hform]
  simp only [cdfClosedLoop, hx, if_true]

lemma cdfVal_closed (d : Dist) (F : ℤ → ℚ) (x : ℤ)
    (hform : d.cdfFormula = some F) (hx : check_value_is_in_range d x = true) :
    cdfVal d x = .ok (F x) := by
  unfold cdfVal
  rw [cdfList_single_closed d F x hform hx]
  rfl

lemma sumFrom_succ (d : Dist) (lo0 x : ℤ) (h : lo0 ≤ x + 1) :
    sumFrom d lo0 (x + 1) = sumFrom d lo0 x + d.pmfFun (x + 1) := by
  unfold sumFrom
  have h1 : (x + 1 + 1 - lo0).toNat = (x + 1 - lo0).toNat + 1 := by omega
  rw [h1, intRange_succ_right]
  have h2 : lo0 + ((x + 1 - lo0).toNat : ℤ) = x + 1 := by omega
  rw [h2, List.map_append, List.sum_append]
  simp

lemma sumFrom_mono (d : Dist) (lo0 : ℤ)
    (hnn : ∀ t, check_value_is_in_range d t = true → 0 ≤ d.pmfFun t)
    (hlo : d.lo = .int lo0) : ∀ (k : ℕ) (x y : ℤ), x + k = y → lo0 - 1 ≤ x →
    check_value_is_in_range d y = true → sumFrom d lo0 x ≤ sumFrom d lo0 y := by
  intro k
  induction k with
  | zero =>
    intro x y hxy _ _
    rw [show x = y by omega]
  | succ k ih =>
    intro x y hxy hx hy
    have hstep : sumFrom d lo0 x ≤ sumFrom d lo0 (x + 1) := by
      rw [sumFrom_succ d lo0 x (by omega)]
      have hcx : check_value_is_in_range d (x + 1) = true :=
        check_mono_down d lo0 y (x + 1) hlo hy (by omega) (by omega)
      linarith [hnn (x + 1) hcx]
    exact le_trans hstep (ih (x + 1) y (by omega) (by omega) hy)

/-! Facts about the concrete variants. -/

lemma check_bernoulli (p : ℚ) (x : ℤ) :
    check_value_is_in_range (Bernoulli p) x = true ↔ 0 ≤ x ∧ x ≤ 1 := by
  simp [check_value_is_in_range, Bernoulli]

lemma check_binomial (n : ℕ) (p : ℚ) (x : ℤ) :
    check_value_is_in_range (Binomial n p) x = true ↔ 0 ≤ x ∧ x ≤ n := by
  simp [check_value_is_in_range, Binomial]

lemma check_geometric (p : ℚ) (x : ℤ) :
    check_value_is_in_range (Geometric p) x = true ↔ 1 ≤ x := by
  simp [check_value_is_in_range, Geometric]

lemma check_poisson (l e : ℚ) (x : ℤ) :
    check_value_is_in_range (Poisson l e) x = true ↔ 0 ≤ x := by
  simp [check_value_is_in_range, Poisson]

lemma check_uniform (m n x : ℤ) :
    check_value_is_in_range (Uniform m n) x = true ↔
      (m : ℚ) ≤ (x : ℚ) ∧ (x : ℚ) ≤ (n : ℚ) := by
  simp [check_value_is_in_range, Uniform]

lemma bernoulli_nonneg (p : ℚ) (hp : 0 < p) (hp1 : p < 1) (t : ℤ) :
    0 ≤ (Bernoulli p).pmfFun t := by
  show 0 ≤ p ^ t * (1 - p) ^ (1 - t)
  have h1 : (0 : ℚ) < 1 - p := by linarith
  exact mul_nonneg (zpow_pos hp t).le (zpow_pos h1 (1 - t)).le

lemma binomial_nonneg (n : ℕ) (p : ℚ) (hp : 0 < p) (hp1 : p < 1) (t : ℤ) :
    0 ≤ (Binomial n p).pmfFun t := by
  show 0 ≤ combQ n t * p ^ t * (1 - p) ^ ((n : ℤ) - t)
  have h1 : (0 : ℚ) < 1 - p := by linarith
  have hc : 0 ≤ combQ n t := by
    unfold combQ
    split
    · positivity
    · exact le_refl 0
  exact mul_nonneg (mul_nonneg hc (zpow_pos hp t).le) (zpow_pos h1 _).le

lemma poisson_nonneg (l e : ℚ) (hl : 0 < l) (he : 0 ≤ e) (t : ℤ) :
    0 ≤ (Poisson l e).pmfFun t := by
  show 0 ≤ l ^ t / (Nat.factorial t.toNat : ℚ) * e
  have hf : (0 : ℚ) ≤ (Nat.factorial t.toNat : ℚ) := by positivity
  exact mul_nonneg (div_nonneg (zpow_pos hl t).le hf) he

lemma geometric_sumFrom (p : ℚ) : ∀ k : ℕ,
    sumFrom (Geometric p) 1 (1 + (k : ℤ)) = 1 - (1 - p) ^ (k + 1) := by
  intro k
  induction k with
  | zero =>
    show sumFrom (Geometric p) 1 1 = 1 - (1 - p) ^ 1
    unfold sumFrom
    norm_num [intRange, Geometric]
  | succ k ih =>
    have harr : 1 + ((k + 1 : ℕ) : ℤ) = (1 + (k : ℤ)) + 1 := by push_cast; ring
    rw [harr, sumFrom_succ (Geometric p) 1 (1 + (k : ℤ)) (by omega), ih]
    show 1 - (1 - p) ^ (k + 1) + (1 - p) ^ (1 + (k : ℤ) + 1 - 1) * p = 1 - (1 - p) ^ (k + 1 + 1)
    have he : (1 : ℤ) + (k : ℤ) + 1 - 1 = ((k + 1 : ℕ) : ℤ) := by push_cast; ring
    rw [he, zpow_natCast]
    ring

lemma intRange_const_sum (c : ℚ) : ∀ (k : ℕ) (lo : ℤ),
    ((intRange lo k).map fun _ => c).sum = k * c := by
  intro k
  induction k with
  | zero => intro lo; simp [intRange]
  | succ k ih =>
    intro lo
    rw [show intRange lo (k + 1) = lo :: intRange (lo + 1) k from rfl, List.map_cons,
      List.sum_cons, ih (lo + 1)]
    push_cast
    ring

lemma uniform_sumFrom (m n x : ℤ) (hx : m ≤ x) :
    sumFrom (Uniform m n) m x = ((x : ℚ) - (m : ℚ) + 1) / ((n : ℚ) - (m : ℚ) + 1) := by
  unfold sumFrom
  have hconst : ((intRange m (x + 1 - m).toNat).map (Uniform m n).pmfFun).sum =
      (((x + 1 - m).toNat : ℕ) : ℚ) * (1 / ((n : ℚ) - (m : ℚ) + 1)) :=
    intRange_const_sum (1 / ((n : ℚ) - (m : ℚ) + 1)) (x + 1 - m).toNat m
  rw [hconst]
  have h1 : ((x + 1 - m).toNat : ℤ) = x + 1 - m := Int.toNat_of_nonneg (by omega)
  have hcast : (((x + 1 - m).toNat : ℕ) : ℚ) = (x : ℚ) - (m : ℚ) + 1 := by
    have h2 : (((x + 1 - m).toNat : ℤ) : ℚ) = ((x + 1 - m : ℤ) : ℚ) := by exact_mod_cast h1
    push_cast at h2
    linarith
  rw [hcast]
  ring

lemma intRange_map_sum (f : ℤ → ℚ) : ∀ (k : ℕ) (lo : ℤ),
    ((intRange lo k).map f).sum = ∑ i in Finset.range k, f (lo + (i : ℤ)) := by
  intro k
  induction k with
  | zero => intro lo; simp [intRange]
  | succ k ih =>
    intro lo
    rw [show intRange lo (k + 1) = lo :: intRange (lo + 1) k from rfl, List.map_cons,
      List.sum_cons, ih (lo + 1), Finset.sum_range_succ', add_comm]
    congr 1
    · refine Finset.sum_congr rfl fun i _ => ?_
      congr 1
      push_cast
      ring
    · congr 1
      norm_num

lemma binomial_sumFrom (n : ℕ) (p : ℚ) : sumFrom (Binomial n p) 0 (n : ℤ) = 1 := by
  unfold sumFrom
  have hk : ((n : ℤ) + 1 - 0).toNat = n + 1 := by omega
  rw [hk, intRange_map_sum]
  have hterm : ∀ i ∈ Finset.range (n + 1),
      (Binomial n p).pmfFun (0 + (i : ℤ)) =
        p ^ i * (1 - p) ^ (n - i) * (n.choose i : ℚ) := by
    intro i hi
    rw [Finset.mem_range] at hi
    show combQ n (0 + (i : ℤ)) * p ^ ((0 : ℤ) + i) * (1 - p) ^ ((n : ℤ) - (0 + i)) = _
    simp only [zero_add]
    have hc : combQ n (i : ℤ) = (n.choose i : ℚ) := by
      unfold combQ
      rw [if_pos (by positivity), Int.toNat_natCast]
    rw [hc, zpow_natCast]
    have he : (n : ℤ) - (i : ℤ) = ((n - i : ℕ) : ℤ) := by omega
    rw [he, zpow_natCast]
    ring
  rw [Finset.sum_congr rfl hterm, ← add_pow p (1 - p) n]
  norm_num

lemma bernoulli_sumFrom (p : ℚ) : sumFrom (Bernoulli p) 0 1 = 1 := by
  unfold sumFrom
  norm_num [intRange, Bernoulli]

/-! Claim theorems. -/

/-- C1: for the int-bound variants `inverse_cdf` does return the smallest
support value with cumulative probability at least the quantile, and the
cursor-reusing search matches a fresh search from the lower bound (sample
runs below on Geometric and Bernoulli); but on `Uniform` every `inverse_cdf`
call crashes: the cursor starts at the `Decimal` stored in `X_range[0]`, and
`cdf`'s `type(x) == int` test fails, so `list(x)` raises a TypeError instead
of any quantile being returned. -/
theorem inverse_cdf_uniform_decimal_crash :
    inverse_cdfList (Uniform 1 6) 10 [1/2] = .error .iterTypeError ∧
    inverse_cdfList (Geometric (1/2)) 10 [1/2, 3/4] = .ok [(1/2, 1), (3/4, 2)] ∧
    inverse_cdf_helper (Geometric (1/2)) 10 (.int 1) (3/4) = .ok 2 ∧
    inverse_cdfList (Bernoulli (3/10)) 10 [1/2] = .ok [(1/2, 0)] := by
  refine ⟨?_, ?_, ?_, ?_⟩
  · norm_num [inverse_cdfList, Uniform, List.insertionSort, icdfScan, inverse_cdf_helper]
  · norm_num [inverse_cdfList, Geometric, List.insertionSort, List.orderedInsert, icdfScan,
      inverse_cdf_helper, cdfVal, cdfList, cdfClosedLoop, check_value_is_in_range, iloc01,
      icdfLoop, pmfVal, pmfList]
  · norm_num [Geometric, inverse_cdf_helper, cdfVal, cdfList, cdfClosedLoop,
      check_value_is_in_range, iloc01, icdfLoop, pmfVal, pmfList]
  · norm_num [inverse_cdfList, Bernoulli, List.insertionSort, List.orderedInsert, icdfScan,
      inverse_cdf_helper, cdfVal, cdfList, check_value_is_in_range, iloc01,
      icdfLoop, pmfVal, pmfList, pyMax, intRange, cumsumAux, List.filter, List.contains]

/-- C2: Bernoulli(p = 0.3) has pmf(0) = 0.7, pmf(1) = 0.3 and
variance() = 0.21 as claimed, but mean() does not return 0.3: its stored
formula string is "1 * parameters['p']" and the bare name `parameters` is
unbound in the scope `eval` runs in, so mean() raises NameError. -/
theorem bernoulli_scenario_eval :
    pmfList (Bernoulli (3/10)) [0] = .ok [(0, 7/10)] ∧
    pmfList (Bernoulli (3/10)) [1] = .ok [(1, 3/10)] ∧
    (Bernoulli (3/10)).varianceEval = .ok (21/100) ∧
    (Bernoulli (3/10)).meanEval = .error .nameError := by
  refine ⟨?_, ?_, ?_, rfl⟩
  · norm_num [pmfList, Bernoulli, check_value_is_in_range]
  · norm_num [pmfList, Bernoulli, check_value_is_in_range]
  · norm_num [Bernoulli]

/-- C3: on a summation-strategy variant, a cdf query containing a value below
the support's lower bound does not raise a range error and does not abort the
query: the out-of-range value is silently dropped and the rows for the
in-range values of the same query are returned.  Concretely,
Bernoulli(0.3).cdf([-1, 1]) returns the single row (1, 1) although -1 fails
the range check. -/
theorem cdf_below_lower_bound_partial_result :
    check_value_is_in_range (Bernoulli (3/10)) (-1) = false ∧
    cdfList (Bernoulli (3/10)) [-1, 1] = .ok [(1, 1)] := by
  refine ⟨rfl, ?_⟩
  norm_num [cdfList, Bernoulli, check_value_is_in_range, pyMax, intRange, pmfList,
    cumsumAux, List.filter, List.contains]

/-- C4: for every distribution state, whenever a pmf query contains an
out-of-range value, the call fails with the range error of the first such
value, and the failure is uniform in the pmf formula (so the pmf expression
never defines the outcome); in particular pmf(11) on Binomial(10, 0.25) fails
with the range error for 11. -/
theorem pmf_range_validation (d : Dist) (xs : List ℤ)
    (h : ∃ x ∈ xs, check_value_is_in_range d x = false) :
    (∃ x, check_value_is_in_range d x = false ∧ ∀ f : ℤ → ℚ,
        pmfList { d with pmfFun := f } xs = .error (.typeError (x : ℚ))) ∧
    pmfList (Binomial 10 (1/4)) [11] = .error (.typeError 11) := by
  constructor
  · induction xs with
    | nil => simp at h
    | cons y ys ih =>
      by_cases hy : check_value_is_in_range d y = true
      · have hys : ∃ x ∈ ys, check_value_is_in_range d x = false := by
          obtain ⟨x, hx, hxf⟩ := h
          rcases List.mem_cons.mp hx with h1 | h1
          · subst h1; rw [hy] at hxf; simp at hxf
          · exact ⟨x, h1, hxf⟩
        obtain ⟨x, hxf, hall⟩ := ih hys
        refine ⟨x, hxf, fun f => ?_⟩
        have hy2 : check_value_is_in_range { d with pmfFun := f } y = true := hy
        simp only [pmfList, hy2, if_true, hall f]
      · have hyf : check_value_is_in_range d y = false := by
          cases hcase : check_value_is_in_range d y
          · rfl
          · exact absurd hcase hy
        refine ⟨y, hyf, fun f => ?_⟩
        have hy2 : check_value_is_in_range { d with pmfFun := f } y = false := hyf
        simp only [pmfList, hy2, Bool.false_eq_true, if_false]
  · norm_num [pmfList, Binomial, check_value_is_in_range]

theorem pmf_range_validation_witness :
    (∃ x, check_value_is_in_range (Binomial 10 (1/4)) x = false ∧ ∀ f : ℤ → ℚ,
        pmfList { Binomial 10 (1/4) with pmfFun := f } [11] =
          .error (.typeError (x : ℚ))) ∧
    pmfList (Binomial 10 (1/4)) [11] = .error (.typeError 11) :=
  pmf_range_validation (Binomial 10 (1/4)) [11]
    ⟨11, List.mem_singleton.mpr rfl, rfl⟩

/-- C5: for the Geometric and Uniform variants the closed-form cdf value at
every support value x equals (exactly, hence within any tolerance) the
cumulative sum of the pmf from the support's lower bound up to x. -/
theorem closed_cdf_agrees_with_pmf_sum :
    (∀ (p : ℚ) (x : ℤ), check_value_is_in_range (Geometric p) x = true →
      cdfVal (Geometric p) x = .ok (sumFrom (Geometric p) 1 x)) ∧
    (∀ m n x : ℤ, check_value_is_in_range (Uniform m n) x = true →
      cdfVal (Uniform m n) x = .ok (sumFrom (Uniform m n) m x)) := by
  constructor
  · intro p x hx
    have hx1 : 1 ≤ x := (check_geometric p x).mp hx
    rw [cdfVal_closed (Geometric p) (fun t => 1 - (1 - p) ^ t) x rfl hx]
    congr 1
    have hk : x = 1 + ((x - 1).toNat : ℤ) := by omega
    rw [hk, geometric_sumFrom p (x - 1).toNat]
    congr 1
    rw [show (1 + (((x - 1).toNat : ℕ) : ℤ)) = ((((x - 1).toNat + 1 : ℕ)) : ℤ) by
      push_cast; ring, zpow_natCast]
  · intro m n x hx
    obtain ⟨hmx, hxn⟩ := (check_uniform m n x).mp hx
    have hmx2 : m ≤ x := by exact_mod_cast hmx
    rw [cdfVal_closed (Uniform m n)
      (fun t => ((t : ℚ) - (m : ℚ) + 1) / ((n : ℚ) - (m : ℚ) + 1)) x rfl hx]
    congr 1
    rw [uniform_sumFrom m n x hmx2]

theorem closed_cdf_agrees_with_pmf_sum_witness :
    cdfVal (Geometric (1/2)) 2 = .ok (sumFrom (Geometric (1/2)) 1 2) ∧
    cdfVal (Uniform 1 6) 3 = .ok (sumFrom (Uniform 1 6) 1 3) :=
  ⟨closed_cdf_agrees_with_pmf_sum.1 (1/2) 2 (by norm_num [check_geometric]),
   closed_cdf_agrees_with_pmf_sum.2 1 6 3 (by norm_num [check_uniform])⟩

/-- Monotonicity of the summation-strategy cdf of any distribution state with
a nonnegative pmf (shared by Bernoulli, Binomial and Poisson below). -/
lemma summation_cdf_mono (d : Dist) (lo0 : ℤ) (hform : d.cdfFormula = none)
    (hlo : d.lo = .int lo0)
    (hnn : ∀ t, check_value_is_in_range d t = true → 0 ≤ d.pmfFun t)
    (x1 x2 : ℤ) (h12 : x1 ≤ x2)
    (h1 : check_value_is_in_range d x1 = true)
    (h2 : check_value_is_in_range d x2 = true) :
    ∃ v1 v2, cdfVal d x1 = .ok v1 ∧ cdfVal d x2 = .ok v2 ∧ v1 ≤ v2 := by
  refine ⟨sumFrom d lo0 x1, sumFrom d lo0 x2, cdfVal_sum d lo0 x1 hform hlo h1,
    cdfVal_sum d lo0 x2 hform hlo h2, ?_⟩
  have hx1 : lo0 ≤ x1 := check_lo_le d lo0 x1 hlo h1
  exact sumFrom_mono d lo0 hnn hlo (x2 - x1).toNat x1 x2 (by omega) (by omega) h2

/-- C6: for every variant and all support values x1 ≤ x2, the cdf value at x1
is at most the cdf value at x2 (the summation variants through the cumulative
pmf sums, Geometric and Uniform through their closed forms). -/
theorem cdf_nondecreasing :
    (∀ p : ℚ, 0 < p → p < 1 → ∀ x1 x2 : ℤ, x1 ≤ x2 →
      check_value_is_in_range (Bernoulli p) x1 = true →
      check_value_is_in_range (Bernoulli p) x2 = true →
      ∃ v1 v2, cdfVal (Bernoulli p) x1 = .ok v1 ∧
        cdfVal (Bernoulli p) x2 = .ok v2 ∧ v1 ≤ v2) ∧
    (∀ (n : ℕ) (p : ℚ), 0 < p → p < 1 → ∀ x1 x2 : ℤ, x1 ≤ x2 →
      check_value_is_in_range (Binomial n p) x1 = true →
      check_value_is_in_range (Binomial n p) x2 = true →
      ∃ v1 v2, cdfVal (Binomial n p) x1 = .ok v1 ∧
        cdfVal (Binomial n p) x2 = .ok v2 ∧ v1 ≤ v2) ∧
    (∀ p : ℚ, 0 < p → p < 1 → ∀ x1 x2 : ℤ, x1 ≤ x2 →
      check_value_is_in_range (Geometric p) x1 = true →
      check_value_is_in_range (Geometric p) x2 = true →
      ∃ v1 v2, cdfVal (Geometric p) x1 = .ok v1 ∧
        cdfVal (Geometric p) x2 = .ok v2 ∧ v1 ≤ v2) ∧
    (∀ l e : ℚ, 0 < l → 0 ≤ e → ∀ x1 x2 : ℤ, x1 ≤ x2 →
      check_value_is_in_range (Poisson l e) x1 = true →
      check_value_is_in_range (Poisson l e) x2 = true →
      ∃ v1 v2, cdfVal (Poisson l e) x1 = .ok v1 ∧
        cdfVal (Poisson l e) x2 = .ok v2 ∧ v1 ≤ v2) ∧
    (∀ m n : ℤ, ∀ x1 x2 : ℤ, x1 ≤ x2 →
      check_value_is_in_range (Uniform m n) x1 = true →
      check_value_is_in_range (Uniform m n) x2 = true →
      ∃ v1 v2, cdfVal (Uniform m n) x1 = .ok v1 ∧
        cdfVal (Uniform m n) x2 = .ok v2 ∧ v1 ≤ v2) := by
  refine ⟨?_, ?_, ?_, ?_, ?_⟩
  · intro p hp hp1 x1 x2 h12 h1 h2
    exact summation_cdf_mono (Bernoulli p) 0 rfl rfl
      (fun t _ => bernoulli_nonneg p hp hp1 t) x1 x2 h12 h1 h2
  · intro n p hp hp1 x1 x2 h12 h1 h2
    exact summation_cdf_mono (Binomial n p) 0 rfl rfl
      (fun t _ => binomial_nonneg n p hp hp1 t) x1 x2 h12 h1 h2
  · intro p hp hp1 x1 x2 h12 h1 h2
    refine ⟨_, _, cdfVal_closed (Geometric p) (fun t => 1 - (1 - p) ^ t) x1 rfl h1,
      cdfVal_closed (Geometric p) (fun t => 1 - (1 - p) ^ t) x2 rfl h2, ?_⟩
    show 1 - (1 - p) ^ x1 ≤ 1 - (1 - p) ^ x2
    have hq0 : (0 : ℚ) < 1 - p := by linarith
    have hq1 : (1 - p) ≤ 1 := by linarith
    have key : (1 - p) ^ x2 ≤ (1 - p) ^ x1 := by
      have hd : x2 = x1 + ((x2 - x1).toNat : ℤ) := by omega
      rw [hd, zpow_add₀ (ne_of_gt hq0), zpow_natCast]
      have hle : (1 - p) ^ ((x2 - x1).toNat) ≤ 1 := pow_le_one₀ hq0.le hq1
      calc (1 - p) ^ x1 * (1 - p) ^ ((x2 - x1).toNat)
          ≤ (1 - p) ^ x1 * 1 := mul_le_mul_of_nonneg_left hle (zpow_pos hq0 x1).le
        _ = (1 - p) ^ x1 := mul_one _
    linarith
  · intro l e hl he x1 x2 h12 h1 h2
    exact summation_cdf_mono (Poisson l e) 0 rfl rfl
      (fun t _ => poisson_nonneg l e hl he t) x1 x2 h12 h1 h2
  · intro m n x1 x2 h12 h1 h2
    obtain ⟨hm1, hn1⟩ := (check_uniform m n x1).mp h1
    obtain ⟨hm2, hn2⟩ := (check_uniform m n x2).mp h2
    refine ⟨_, _,
      cdfVal_closed (Uniform m n)
        (fun t => ((t : ℚ) - (m : ℚ) + 1) / ((n : ℚ) - (m : ℚ) + 1)) x1 rfl h1,
      cdfVal_closed (Uniform m n)
        (fun t => ((t : ℚ) - (m : ℚ) + 1) / ((n : ℚ) - (m : ℚ) + 1)) x2 rfl h2, ?_⟩
    show ((x1 : ℚ) - (m : ℚ) + 1) / ((n : ℚ) - (m : ℚ) + 1) ≤
      ((x2 : ℚ) - (m : ℚ) + 1) / ((n : ℚ) - (m : ℚ) + 1)
    have hD : (0 : ℚ) < (n : ℚ) - (m : ℚ) + 1 := by linarith
    have hx12 : (x1 : ℚ) ≤ (x2 : ℚ) := by exact_mod_cast h12
    gcongr

theorem cdf_nondecreasing_witness :
    (∃ v1 v2, cdfVal (Bernoulli (1/2)) 0 = .ok v1 ∧
      cdfVal (Bernoulli (1/2)) 1 = .ok v2 ∧ v1 ≤ v2) ∧
    (∃ v1 v2, cdfVal (Binomial 2 (1/2)) 0 = .ok v1 ∧
      cdfVal (Binomial 2 (1/2)) 2 = .ok v2 ∧ v1 ≤ v2) ∧
    (∃ v1 v2, cdfVal (Geometric (1/2)) 1 = .ok v1 ∧
      cdfVal (Geometric (1/2)) 3 = .ok v2 ∧ v1 ≤ v2) ∧
    (∃ v1 v2, cdfVal (Poisson 4 (1/100)) 0 = .ok v1 ∧
      cdfVal (Poisson 4 (1/100)) 5 = .ok v2 ∧ v1 ≤ v2) ∧
    (∃ v1 v2, cdfVal (Uniform 1 6) 2 = .ok v1 ∧
      cdfVal (Uniform 1 6) 5 = .ok v2 ∧ v1 ≤ v2) :=
  ⟨cdf_nondecreasing.1 (1/2) (by norm_num) (by norm_num) 0 1 (by norm_num)
      (by norm_num [check_bernoulli]) (by norm_num [check_bernoulli]),
   cdf_nondecreasing.2.1 2 (1/2) (by norm_num) (by norm_num) 0 2 (by norm_num)
      (by norm_num [check_binomial]) (by norm_num [check_binomial]),
   cdf_nondecreasing.2.2.1 (1/2) (by norm_num) (by norm_num) 1 3 (by norm_num)
      (by norm_num [check_geometric]) (by norm_num [check_geometric]),
   cdf_nondecreasing.2.2.2.1 4 (1/100) (by norm_num) (by norm_num) 0 5 (by norm_num)
      (by norm_num [check_poisson]) (by norm_num [check_poisson]),
   cdf_nondecreasing.2.2.2.2 1 6 2 5 (by norm_num)
      (by norm_num [check_uniform]) (by norm_num [check_uniform])⟩

/-- C7: for the finite-support variants the cdf at the top of the support is
exactly 1, and the pmf summed over the whole support is exactly 1 (hence
within any tolerance). -/
theorem finite_support_mass_one :
    (∀ p : ℚ, cdfVal (Bernoulli p) 1 = .ok 1 ∧ sumFrom (Bernoulli p) 0 1 = 1) ∧
    (∀ (n : ℕ) (p : ℚ), cdfVal (Binomial n p) (n : ℤ) = .ok 1 ∧
      sumFrom (Binomial n p) 0 (n : ℤ) = 1) ∧
    (∀ m n : ℤ, m ≤ n → cdfVal (Uniform m n) n = .ok 1 ∧
      sumFrom (Uniform m n) m n = 1) := by
  refine ⟨fun p => ⟨?_, bernoulli_sumFrom p⟩,
    fun n p => ⟨?_, binomial_sumFrom n p⟩, fun m n hmn => ⟨?_, ?_⟩⟩
  · rw [cdfVal_sum (Bernoulli p) 0 1 rfl rfl rfl, bernoulli_sumFrom p]
  · rw [cdfVal_sum (Binomial n p) 0 (n : ℤ) rfl rfl
      ((check_binomial n p (n : ℤ)).mpr (by omega)), binomial_sumFrom n p]
  · have hmn2 : (m : ℚ) ≤ (n : ℚ) := by exact_mod_cast hmn
    rw [cdfVal_closed (Uniform m n)
      (fun t => ((t : ℚ) - (m : ℚ) + 1) / ((n : ℚ) - (m : ℚ) + 1)) n rfl
      ((check_uniform m n n).mpr ⟨hmn2, le_refl _⟩)]
    congr 1
    show ((n : ℚ) - (m : ℚ) + 1) / ((n : ℚ) - (m : ℚ) + 1) = 1
    exact div_self (by linarith)
  · have hmn2 : (m : ℚ) ≤ (n : ℚ) := by exact_mod_cast hmn
    rw [uniform_sumFrom m n n hmn]
    exact div_self (by linarith)

theorem finite_support_mass_one_witness :
    (cdfVal (Bernoulli (1/2)) 1 = .ok 1 ∧ sumFrom (Bernoulli (1/2)) 0 1 = 1) ∧
    (cdfVal (Binomial 2 (1/2)) 2 = .ok 1 ∧ sumFrom (Binomial 2 (1/2)) 0 2 = 1) ∧
    (cdfVal (Uniform 1 3) 3 = .ok 1 ∧ sumFrom (Uniform 1 3) 1 3 = 1) :=
  ⟨finite_support_mass_one.1 (1/2), finite_support_mass_one.2.1 2 (1/2),
   finite_support_mass_one.2.2 1 3 (by norm_num)⟩

/-- C8: quantiles outside the exclusive interval (0, 1) are rejected with the
range error and no result is returned — as the samples on Bernoulli show, and
on Uniform too when an invalid quantile sorts first; but on Uniform with a
valid quantile sorting before the invalid one, the call instead dies with the
Decimal-bound TypeError before the invalid quantile is ever validated (same
root cause as the inverse-cdf crash), so no range error is raised there. -/
theorem inverse_cdf_bad_quantile_eval :
    inverse_cdfList (Bernoulli (3/10)) 10 [1/2, 3/2] = .error (.typeError (3/2)) ∧
    inverse_cdfList (Uniform 1 6) 10 [-1/2, 1/2] = .error (.typeError (-1/2)) ∧
    inverse_cdfList (Uniform 1 6) 10 [1/2, 3/2] = .error .iterTypeError := by
  refine ⟨?_, ?_, ?_⟩
  · norm_num [inverse_cdfList, Bernoulli, List.insertionSort, List.orderedInsert, icdfScan,
      inverse_cdf_helper, cdfVal, cdfList, check_value_is_in_range, iloc01,
      icdfLoop, pmfVal, pmfList, pyMax, intRange, cumsumAux, List.filter, List.contains]
  · norm_num [inverse_cdfList, Uniform, List.insertionSort, List.orderedInsert, icdfScan]
  · norm_num [inverse_cdfList, Uniform, List.insertionSort, List.orderedInsert, icdfScan,
      inverse_cdf_helper]

/-- C9: no query method mutates the instance: each returns the receiver as its
post-state, so every field (parameters inside the formulas, support range,
formula fields, name) is unchanged, and repeating a query after other queries
yields the same result. -/
theorem queries_are_pure : ∀ (d : Dist) (x x2 : IntArg) (a : QArg) (fuel : ℕ),
    (pmfMethod d x).2 = d ∧ (cdfMethod d x).2 = d ∧
    (inverse_cdfMethod d fuel a).2 = d ∧
    (meanMethod d).2 = d ∧ (varianceMethod d).2 = d ∧
    (pmfMethod ((cdfMethod d x2).2) x).1 = (pmfMethod d x).1 ∧
    (cdfMethod ((pmfMethod d x2).2) x).1 = (cdfMethod d x).1 ∧
    (inverse_cdfMethod ((pmfMethod d x2).2) fuel a).1 =
      (inverse_cdfMethod d fuel a).1 ∧
    (pmfMethod ((pmfMethod d x).2) x).1 = (pmfMethod d x).1 ∧
    (meanMethod ((varianceMethod d).2)).1 = (meanMethod d).1 :=
  fun _ _ _ _ _ => ⟨rfl, rfl, rfl, rfl, rfl, rfl, rfl, rfl, rfl, rfl⟩

/-- C10: a single int passed to pmf/cdf (a single number to inverse_cdf) is
treated exactly as the corresponding one-element list, and the result of a
successful singleton query is the corresponding one-row table. -/
theorem scalar_coercion (d : Dist) (fuel : ℕ) (x : ℤ) (a : ℚ) :
    pmfMethod d (.int x) = pmfMethod d (.list [x]) ∧
    cdfMethod d (.int x) = cdfMethod d (.list [x]) ∧
    inverse_cdfMethod d fuel (.num a) = inverse_cdfMethod d fuel (.list [a]) ∧
    (check_value_is_in_range d x = true →
      (pmfMethod d (.int x)).1 = .ok [(x, d.pmfFun x)]) ∧
    (check_value_is_in_range d x = true →
      ∀ r, (cdfMethod d (.int x)).1 = .ok r → ∃ v, r = [(x, v)]) ∧
    (∀ r, (inverse_cdfMethod d fuel (.num a)).1 = .ok r → ∃ q, r = [(a, q)]) := by
  refine ⟨rfl, rfl, rfl, ?_, ?_, ?_⟩
  · intro hx
    show pmfList d [x] = _
    rw [pmfList_ok d [x] ?inr]
    case inr =>
      intro t ht
      rw [List.mem_singleton] at ht
      rw [ht]
      exact hx
    rfl
  · intro hx r hr
    have hr2 : cdfList d [x] = .ok r := hr
    cases hform : d.cdfFormula with
    | some F =>
      rw [cdfList_single_closed d F x hform hx] at hr2
      exact ⟨F x, by injection hr2 with h; exact h.symm⟩
    | none =>
      cases hlo : d.lo with
      | int lo0 =>
        rw [cdfList_single_sum d lo0 x hform hlo hx] at hr2
        exact ⟨sumFrom d lo0 x, by injection hr2 with h; exact h.symm⟩
      | dec q =>
        simp only [cdfList, hform, hlo] at hr2
        simp at hr2
      | inf =>
        simp only [cdfList, hform, hlo] at hr2
        simp at hr2
  · intro r hr
    have hr2 : inverse_cdfList d fuel [a] = .ok r := hr
    unfold inverse_cdfList at hr2
    rw [show List.insertionSort (· ≤ ·) [a] = [a] from rfl] at hr2
    by_cases hv : 0 < a ∧ a < 1
    · cases hhelp : inverse_cdf_helper d fuel d.lo a with
      | error e =>
        simp only [icdfScan, hv, if_true, hhelp] at hr2
        simp at hr2
      | ok q =>
        refine ⟨q, ?_⟩
        simp only [icdfScan, hv, if_true, hhelp] at hr2
        norm_num at hr2
        exact hr2.symm
    · simp only [icdfScan, hv, if_false] at hr2
      simp at hr2

theorem scalar_coercion_witness :
    (pmfMethod (Bernoulli (1/2)) (.int 1) = pmfMethod (Bernoulli (1/2)) (.list [1])) ∧
    ((pmfMethod (Bernoulli (1/2)) (.int 1)).1 =
      .ok [(1, (Bernoulli (1/2)).pmfFun 1)]) ∧
    (∀ r, (cdfMethod (Bernoulli (1/2)) (.int 1)).1 = .ok r → ∃ v, r = [(1, v)]) ∧
    (∀ r, (inverse_cdfMethod (Bernoulli (1/2)) 5 (.num (1/2))).1 = .ok r →
      ∃ q, r = [(1/2, q)]) :=
  ⟨(scalar_coercion (Bernoulli (1/2)) 5 1 (1/2)).1,
   (scalar_coercion (Bernoulli (1/2)) 5 1 (1/2)).2.2.2.1 rfl,
   (scalar_coercion (Bernoulli (1/2)) 5 1 (1/2)).2.2.2.2.1 rfl,
   (scalar_coercion (Bernoulli (1/2)) 5 1 (1/2)).2.2.2.2.2⟩

end DDC
